import Mathlib

/-!
Verification of the streaming speech-recognition client in
src/ufo/module/interactor.py (function recognize_speech_assemblyai_streaming
and its nested handlers on_open/stream_audio, on_message, on_error, on_close).

The session is modelled by explicit state passing. Inbound websocket
messages drive the on_message handler, which appends the transcript of a
finalizing Turn event to a FIFO result queue and sets a session-local stop
flag. The caller performs one bounded take from the queue (empty means
deadline expiry, mapped to the empty string) and then runs the teardown
sequence of lines 135-154. Thread-level effects (reads, sends, closes,
joins) are modelled as explicit action traces emitted by each component.
-/

/-- Inbound websocket message after json.loads in on_message (lines 70-75):
either a decoded object carrying the four fields the handler reads, or
malformed input whose parse failure is swallowed by the except branch. -/
inductive InMsg where
  | valid (msgType : String) (transcript : String)
      (turn_is_final : Bool) (turn_is_formatted : Bool)
  | malformed
  deriving DecidableEq

/-- Per-session mutable state created at the top of
recognize_speech_assemblyai_streaming: result_queue (line 48) as a FIFO
list, and the session-local stop_event (line 53) as a flag. -/
structure SessionState where
  result_queue : List String
  stop_set : Bool
  deriving DecidableEq

/-- The fresh session state of lines 48 and 53: empty queue, unset event. -/
def initialState : SessionState :=
  { result_queue := [], stop_set := false }

/-- The on_message handler, lines 69-81: on a Turn message whose
turn_is_final or turn_is_formatted flag is set, put the transcript into
the result queue and set the stop event; every other message, and any
malformed message, leaves the state unchanged. The stop event is not
consulted before the put. -/
def on_message (s : SessionState) (m : InMsg) : SessionState :=
  match m with
  | .malformed => s
  | .valid ty tr fin fmt =>
    if ty == "Turn" then
      if fin || fmt then
        { result_queue := s.result_queue ++ [tr], stop_set := true }
      else s
    else s

/-- Processing of a sequence of inbound messages in arrival order by the
transport callback thread: a fold of on_message. -/
def process (s : SessionState) (msgs : List InMsg) : SessionState :=
  msgs.foldl on_message s

/-- The transcript a message contributes to the queue, when it is a
finalizing Turn event (mirrors the guard structure of on_message). -/
def finalTranscript? (m : InMsg) : Option String :=
  match m with
  | .malformed => none
  | .valid ty tr fin fmt =>
    if ty == "Turn" then
      if fin || fmt then some tr else none
    else none

/-- All finalizing transcripts of a message sequence, in arrival order. -/
def finalTranscripts (msgs : List InMsg) : List String :=
  msgs.filterMap finalTranscript?

/-- The transcript of the first finalizing Turn event of a sequence. -/
def firstFinalTranscript (msgs : List InMsg) : Option String :=
  (finalTranscripts msgs).head?

/-- The single blocking result_queue.get of line 131 together with the
queue.Empty handler of lines 132-133: the front of the queue when one
item was put, the empty string otherwise. -/
def headTranscript : List String → String
  | [] => ""
  | t :: _ => t

/-- The value recognize_speech_assemblyai_streaming returns for a session
whose open succeeded and whose delivered messages are msgs: one take from
the queue produced by processing msgs, defaulting to empty on timeout. -/
def recognizeValue (msgs : List InMsg) : String :=
  headTranscript (process initialState msgs).result_queue

/-- Timed view of the result wait (line 131): messages carry arrival
times, only those arriving strictly before the deadline are processed,
and the return instant is the arrival time of the first delivered
finalizing event, or the deadline itself when no such event arrives. -/
def recognizeTimed (deadline : Nat) (msgs : List (Nat × InMsg)) :
    String × Nat :=
  match (msgs.filter (fun p => decide (p.1 < deadline))).find?
      (fun p => (finalTranscript? p.2).isSome) with
  | some p => (headTranscript (process initialState
      ((msgs.filter (fun p => decide (p.1 < deadline))).map
        Prod.snd)).result_queue, p.1)
  | none => ("", deadline)

/-- Observable thread-level effects of the session components. -/
inductive SessionAction where
  | readFrame
  | sendFrame
  | putResult (t : String)
  | setStop
  | stopStream
  | closeStream
  | terminateAudio
  | closeTransport
  | joinWsThread
  | joinAudioThread
  deriving DecidableEq

/-- Actions that close or release a shared resource (the audio stream,
the audio device, or the transport handle). -/
def isCloseAction : SessionAction → Bool
  | .stopStream => true
  | .closeStream => true
  | .terminateAudio => true
  | .closeTransport => true
  | _ => false

/-- Outcome of one iteration of the stream_audio loop body, lines 59-63:
either both the device read and the websocket send succeed, or one of
them raises (and the except branch breaks the loop). -/
inductive FwdStep where
  | ok
  | readFail
  | sendFail
  deriving DecidableEq

/-- The stream_audio loop of lines 56-63, as the trace of actions it
performs. Each iteration is driven by the value the loop observes for
stop_event.is_set() at that instant (the event is set concurrently by the
other threads) and by whether the read or the send raises. On a raise
the except branch breaks; the loop emits no setStop and no close. -/
def stream_audio : List (Bool × FwdStep) → List SessionAction
  | [] => []
  | (stopSeen, st) :: rest =>
    if stopSeen then []
    else
      match st with
      | .ok => SessionAction.readFrame :: SessionAction.sendFrame :: stream_audio rest
      | .readFail => [SessionAction.readFrame]
      | .sendFail => [SessionAction.readFrame, SessionAction.sendFrame]

/-- SessionAction trace of the on_message handler (lines 69-81): a put followed
by a set of the stop event on a finalizing Turn event, nothing else. -/
def on_message_actions (m : InMsg) : List SessionAction :=
  match m with
  | .malformed => []
  | .valid ty tr fin fmt =>
    if ty == "Turn" then
      if fin || fmt then [SessionAction.putResult tr, SessionAction.setStop]
      else []
    else []

/-- SessionAction trace of the on_error handler (lines 83-84). -/
def on_error_actions : List SessionAction :=
  [SessionAction.setStop]

/-- SessionAction trace of the on_close handler (lines 85-103): set the stop
event; then, the stream being non-None once open succeeded, stop it when
active and close it (each in its own try); terminate the audio object;
finally join the audio thread when it is still alive. -/
def on_close_actions (streamActive threadAlive : Bool) : List SessionAction :=
  [SessionAction.setStop]
    ++ (if streamActive then [SessionAction.stopStream] else [])
    ++ [SessionAction.closeStream, SessionAction.terminateAudio]
    ++ (if threadAlive then [SessionAction.joinAudioThread] else [])

/-- Failure injections for the teardown sequence of lines 135-153: any
of the four closing calls may raise. -/
structure TeardownFaults where
  transportCloseFails : Bool
  stopStreamFails : Bool
  streamCloseFails : Bool
  audioTerminateFails : Bool
  deriving DecidableEq

/-- The teardown sequence of lines 135-153 run after the result wait, as
the trace of calls it attempts paired with whether it raises. Line 135
sets the stop event unconditionally. The ws_app.close() call of line 137
is not wrapped in a try, so when it raises the sequence aborts there and
the exception propagates. The join of line 138 is of the websocket
thread, with a 2 second bound, and raises in no case. The stream stop
and close of lines 139-148 and the audio terminate of lines 149-153 each
sit in their own try/except, so a raise there is swallowed and the next
step still runs. -/
def teardownTrace (streamActive : Bool) (f : TeardownFaults) :
    List SessionAction × Bool :=
  if f.transportCloseFails then
    ([SessionAction.setStop, SessionAction.closeTransport], true)
  else
    ([SessionAction.setStop, SessionAction.closeTransport, SessionAction.joinWsThread]
      ++ (if streamActive then [SessionAction.stopStream] else [])
      ++ [SessionAction.closeStream, SessionAction.terminateAudio], false)

/-- Observable outcome of one call to recognize_speech_assemblyai_streaming. -/
structure CallOutcome where
  transcript : String
  wsCreated : Bool
  handlersRegistered : Bool
  audioTerminateAttempted : Bool
  raised : Bool
  deriving DecidableEq

/-- Whole-call model of recognize_speech_assemblyai_streaming
(lines 47-154). When audio.open raises (lines 105-118), the except
branch terminates the audio object and returns the empty string at once:
no WebSocketApp is constructed and no handlers are registered. Otherwise
the session runs: the delivered messages are processed, line 131 takes
the front of the queue (empty string on timeout), and the teardown of
lines 135-153 runs with the given fault injections. -/
def recognize_speech_assemblyai_streaming (openFails : Bool)
    (msgs : List InMsg) (streamActive : Bool) (f : TeardownFaults) :
    CallOutcome :=
  if openFails then
    { transcript := "", wsCreated := false, handlersRegistered := false,
      audioTerminateAttempted := true, raised := false }
  else
    let td := teardownTrace streamActive f
    { transcript := headTranscript (process initialState msgs).result_queue,
      wsCreated := true, handlersRegistered := true,
      audioTerminateAttempted := decide (SessionAction.terminateAudio ∈ td.1),
      raised := td.2 }

/-- Cross-call view for the module-level stop_event of line 45: the call
receives the module flag, but line 53 rebinds stop_event to a fresh
Event and line 48 builds a fresh Queue, so the session starts from
initialState and the module flag is neither read nor written. The pair
returned is the transcript and the module flag after the call. -/
def recognizeShadow (moduleStop : Bool) (openFails : Bool)
    (msgs : List InMsg) : String × Bool :=
  if openFails then ("", moduleStop)
  else
    (headTranscript (process
      { result_queue := [], stop_set := false } msgs).result_queue,
     moduleStop)

/-! Helper lemmas on the queue discipline. -/

/-- One on_message step appends exactly the finalizing transcript of the
message, when there is one. -/
lemma on_message_queue (s : SessionState) (m : InMsg) :
    (on_message s m).result_queue
      = s.result_queue ++ (finalTranscript? m).toList := by
  cases m with
  | malformed => simp [on_message, finalTranscript?]
  | valid ty tr fin fmt =>
    simp only [on_message, finalTranscript?]
    by_cases h1 : (ty == "Turn") = true
    · by_cases h2 : (fin || fmt) = true
      · simp [h1, h2]
      · simp [h1, h2]
    · simp [h1]

/-- One on_message step only ever sets the stop flag, never clears it. -/
lemma on_message_stop (s : SessionState) (m : InMsg) :
    (on_message s m).stop_set
      = (s.stop_set || (finalTranscript? m).isSome) := by
  cases m with
  | malformed => simp [on_message, finalTranscript?]
  | valid ty tr fin fmt =>
    simp only [on_message, finalTranscript?]
    by_cases h1 : (ty == "Turn") = true
    · by_cases h2 : (fin || fmt) = true
      · simp [h1, h2]
      · simp [h1, h2]
    · simp [h1]

/-- Processing a message sequence appends all its finalizing transcripts,
in arrival order, to the queue. -/
lemma process_queue (msgs : List InMsg) :
    ∀ s : SessionState, (process s msgs).result_queue
      = s.result_queue ++ finalTranscripts msgs := by
  induction msgs with
  | nil => intro s; simp [process, finalTranscripts]
  | cons m rest ih =>
    intro s
    have hstep : process s (m :: rest) = process (on_message s m) rest := by
      simp [process]
    rw [hstep, ih (on_message s m), on_message_queue]
    simp [finalTranscripts, List.filterMap_cons]
    cases h : finalTranscript? m <;> simp [h]

/-- The head of a filterMap is the image of the first element on which
the function fires. -/
lemma head_filterMap {α β : Type} (f : α → Option β) (l : List α) :
    (l.filterMap f).head? = (l.find? (fun a => (f a).isSome)).bind f := by
  induction l with
  | nil => simp
  | cons a rest ih =>
    cases h : f a with
    | none =>
      have hs : ((f a).isSome) = false := by simp [h]
      simp [List.filterMap_cons, h, List.find?_cons, hs, ih]
    | some b =>
      have hs : ((f a).isSome) = true := by simp [h]
      simp [List.filterMap_cons, h, List.find?_cons, hs]

/-- Taking from a queue whose front is known. -/
lemma headTranscript_of_head (l : List String) (t : String)
    (h : l.head? = some t) : headTranscript l = t := by
  cases l with
  | nil => simp at h
  | cons x rest =>
    simp at h
    simpa [headTranscript] using h

/-! Claim theorems. -/

/-- Claim C1, counterexample: after a first finalizing Turn event the
stop event is set, yet a second finalizing Turn event still performs a
write — the result queue ends up holding two transcripts, so it is not
true that at most one transcript is ever written to the result slot. -/
theorem C1_two_writes_counterexample :
    (process initialState [InMsg.valid "Turn" "first" true false]).stop_set
        = true
    ∧ (process initialState
        [InMsg.valid "Turn" "first" true false,
         InMsg.valid "Turn" "second" true false]).result_queue
        = ["first", "second"] := by
  exact ⟨rfl, rfl⟩

/-- Claim C1, amended: every finalizing Turn event writes its transcript
to the result queue — on_message never consults the stop event, so later
finalizing events write as well — but the writes are appended in arrival
order, so the first finalizing transcript occupies the front of the
queue, the only position the single blocking get can observe. -/
theorem C1_first_write_at_front (msgs : List InMsg) :
    (process initialState msgs).result_queue = finalTranscripts msgs
    ∧ (process initialState msgs).result_queue.head?
        = firstFinalTranscript msgs := by
  have h : (process initialState msgs).result_queue
      = finalTranscripts msgs := by
    simpa [initialState] using process_queue msgs initialState
  exact ⟨h, by rw [h]; rfl⟩

/-- Claim C7: the value recognize returns is the transcript of the first
finalizing Turn event, whatever events (including further finalizing
ones) arrive after it; the caller takes from the queue exactly once, so
no duplicate or overwritten result reaches it. -/
theorem C7_caller_sees_first_transcript (msgs extra : List InMsg)
    (t : String) (h : firstFinalTranscript msgs = some t) :
    recognizeValue (msgs ++ extra) = t ∧ recognizeValue msgs = t := by
  have hq : ∀ ms : List InMsg,
      (process initialState ms).result_queue = finalTranscripts ms := by
    intro ms
    have h0 := process_queue ms initialState
    simpa [initialState] using h0
  have hcons : ∃ rest, finalTranscripts msgs = t :: rest := by
    unfold firstFinalTranscript at h
    cases hft : finalTranscripts msgs with
    | nil => rw [hft] at h; simp at h
    | cons x rest =>
      rw [hft] at h
      simp at h
      exact ⟨rest, by rw [h]⟩
  obtain ⟨rest, hrest⟩ := hcons
  constructor
  · unfold recognizeValue
    rw [hq]
    apply headTranscript_of_head
    unfold finalTranscripts
    rw [List.filterMap_append]
    show (finalTranscripts msgs ++ finalTranscripts extra).head? = some t
    rw [hrest]
    rfl
  · unfold recognizeValue
    rw [hq, hrest]
    rfl

/-- Claim C7, witness: two finalizing events race; the caller receives
the transcript of the first. -/
theorem C7_witness :
    recognizeValue
        ([InMsg.valid "Turn" "first" true false]
          ++ [InMsg.valid "Turn" "second" false true]) = "first"
    ∧ recognizeValue [InMsg.valid "Turn" "first" true false] = "first" :=
  C7_caller_sees_first_transcript
    [InMsg.valid "Turn" "first" true false]
    [InMsg.valid "Turn" "second" false true]
    "first" rfl

/-- Claim C9: when the first finalizing Turn event carries the empty
transcript, recognize returns the empty string — exactly what it returns
when no finalizing event arrives at all — so an empty return value does
not tell the caller whether the deadline expired. -/
theorem C9_empty_result_ambiguous (msgs msgs2 : List InMsg)
    (h : firstFinalTranscript msgs = some "")
    (h2 : firstFinalTranscript msgs2 = none) :
    recognizeValue msgs = "" ∧ recognizeValue msgs2 = ""
    ∧ recognizeValue msgs = recognizeValue msgs2 := by
  have hq : ∀ ms : List InMsg,
      (process initialState ms).result_queue = finalTranscripts ms := by
    intro ms
    have h0 := process_queue ms initialState
    simpa [initialState] using h0
  have e1 : recognizeValue msgs = "" := by
    unfold recognizeValue
    rw [hq]
    apply headTranscript_of_head
    exact h
  have e2 : recognizeValue msgs2 = "" := by
    unfold recognizeValue
    rw [hq]
    unfold firstFinalTranscript at h2
    rw [List.head?_eq_none_iff] at h2
    rw [h2]
    rfl
  exact ⟨e1, e2, by rw [e1, e2]⟩

/-- Claim C9, witness: a finalized empty transcript and a session with
only interim events produce the same empty return value. -/
theorem C9_witness :
    recognizeValue [InMsg.valid "Turn" "" true false] = ""
    ∧ recognizeValue [InMsg.valid "Turn" "interim" false false] = ""
    ∧ recognizeValue [InMsg.valid "Turn" "" true false]
        = recognizeValue [InMsg.valid "Turn" "interim" false false] :=
  C9_empty_result_ambiguous
    [InMsg.valid "Turn" "" true false]
    [InMsg.valid "Turn" "interim" false false]
    rfl rfl

/-- Claim C3: when the backend delivers, strictly before the deadline, a
Turn message with turn_is_final or turn_is_formatted set, recognize
returns the transcript of the first such message, and it returns at that
message's arrival instant, not at the deadline. -/
theorem C3_returns_first_final_before_deadline (deadline : Nat)
    (msgs : List (Nat × InMsg)) (t0 : Nat) (m : InMsg) (tr : String)
    (hfind : (msgs.filter (fun p => decide (p.1 < deadline))).find?
        (fun p => (finalTranscript? p.2).isSome) = some (t0, m))
    (htr : finalTranscript? m = some tr) :
    recognizeTimed deadline msgs = (tr, t0) ∧ t0 < deadline := by
  constructor
  · unfold recognizeTimed
    rw [hfind]
    have hq : (process initialState
        ((msgs.filter (fun p => decide (p.1 < deadline))).map
          Prod.snd)).result_queue
        = ((msgs.filter (fun p => decide (p.1 < deadline))).map
          Prod.snd).filterMap finalTranscript? := by
      simpa [initialState, finalTranscripts] using
        process_queue ((msgs.filter
          (fun p => decide (p.1 < deadline))).map Prod.snd) initialState
    have hhead : (((msgs.filter (fun p => decide (p.1 < deadline))).map
        Prod.snd).filterMap finalTranscript?).head? = some tr := by
      rw [List.filterMap_map, head_filterMap]
      simp only [Function.comp]
      rw [hfind]
      simpa using htr
    have : headTranscript (process initialState
        ((msgs.filter (fun p => decide (p.1 < deadline))).map
          Prod.snd)).result_queue = tr := by
      apply headTranscript_of_head
      rw [hq]
      exact hhead
    rw [this]
  · have hmem : (t0, m) ∈ msgs.filter (fun p => decide (p.1 < deadline)) :=
      List.mem_of_find?_eq_some hfind
    have := (List.mem_filter.mp hmem).2
    simpa using this

/-- Claim C3, witness: a finalizing Turn arrives at t = 2 with a 15
second deadline; recognize returns its transcript at t = 2, not 15. -/
theorem C3_witness :
    recognizeTimed 15 [(2, InMsg.valid "Turn" "hello world" true false)]
      = ("hello world", 2) ∧ 2 < 15 :=
  C3_returns_first_final_before_deadline 15
    [(2, InMsg.valid "Turn" "hello world" true false)] 2
    (InMsg.valid "Turn" "hello world" true false) "hello world" rfl rfl

/-- Claim C4: when no finalizing Turn event arrives before the deadline,
recognize returns exactly the empty string at the deadline; the empty
queue case is the caught queue.Empty branch of lines 132-133, so the
call returns a value instead of raising. -/
theorem C4_deadline_expiry_returns_empty (deadline : Nat)
    (msgs : List (Nat × InMsg))
    (hnone : (msgs.filter (fun p => decide (p.1 < deadline))).find?
        (fun p => (finalTranscript? p.2).isSome) = none) :
    recognizeTimed deadline msgs = ("", deadline) := by
  unfold recognizeTimed
  rw [hnone]

/-- Claim C4, witness: only interim Turn events arrive before a 3 second
deadline; recognize returns the empty string at the deadline. -/
theorem C4_witness :
    recognizeTimed 3 [(1, InMsg.valid "Turn" "interim" false false)]
      = ("", 3) :=
  C4_deadline_expiry_returns_empty 3
    [(1, InMsg.valid "Turn" "interim" false false)] rfl

/-- Claim C8: the stream_audio loop never sets the shared stop event —
its trace contains no setStop action for any schedule — and a failing
read or send ends the loop: the trace is unchanged by whatever schedule
would have followed the failing iteration. -/
theorem C8_forwarder_failure_leaves_stop_unchanged :
    (∀ iters : List (Bool × FwdStep),
        SessionAction.setStop ∉ stream_audio iters)
    ∧ (∀ pre post : List (Bool × FwdStep),
        stream_audio (pre ++ (false, FwdStep.readFail) :: post)
          = stream_audio (pre ++ [(false, FwdStep.readFail)]))
    ∧ (∀ pre post : List (Bool × FwdStep),
        stream_audio (pre ++ (false, FwdStep.sendFail) :: post)
          = stream_audio (pre ++ [(false, FwdStep.sendFail)])) := by
  refine ⟨?_, ?_, ?_⟩
  · intro iters
    induction iters with
    | nil => simp [stream_audio]
    | cons p rest ih =>
      obtain ⟨b, st⟩ := p
      cases b with
      | true => simp [stream_audio]
      | false =>
        cases st with
        | ok => simpa [stream_audio] using ih
        | readFail => simp [stream_audio]
        | sendFail => simp [stream_audio]
  · intro pre post
    induction pre with
    | nil => rfl
    | cons p pre ih =>
      obtain ⟨b, st⟩ := p
      cases b with
      | true => simp [List.cons_append, stream_audio]
      | false =>
        cases st with
        | ok => simp [List.cons_append, stream_audio, ih]
        | readFail => simp [List.cons_append, stream_audio]
        | sendFail => simp [List.cons_append, stream_audio]
  · intro pre post
    induction pre with
    | nil => rfl
    | cons p pre ih =>
      obtain ⟨b, st⟩ := p
      cases b with
      | true => simp [List.cons_append, stream_audio]
      | false =>
        cases st with
        | ok => simp [List.cons_append, stream_audio, ih]
        | readFail => simp [List.cons_append, stream_audio]
        | sendFail => simp [List.cons_append, stream_audio]

/-- Claim C5, counterexample: the on_close handler — run on the
transport callback thread, not by the coordinator — itself closes the
audio stream and terminates the audio device, so it is not true that
only the coordinator closes shared resources. -/
theorem C5_onclose_closes_audio_counterexample :
    SessionAction.closeStream ∈ on_close_actions true true
    ∧ SessionAction.terminateAudio ∈ on_close_actions true true := by
  decide

/-- Claim C5, amended: the stream_audio loop, the on_message handler and
the on_error handler never close any shared resource, and no handler
ever closes the transport handle; the on_close handler, however, besides
setting the stop event, stops and closes the audio stream and terminates
the audio device, duplicating the coordinator teardown of lines 139-153. -/
theorem C5_close_ownership (iters : List (Bool × FwdStep)) (m : InMsg)
    (sa ta : Bool) :
    (∀ a ∈ stream_audio iters, isCloseAction a = false)
    ∧ (∀ a ∈ on_message_actions m, isCloseAction a = false)
    ∧ (∀ a ∈ on_error_actions, isCloseAction a = false)
    ∧ SessionAction.closeTransport ∉ on_close_actions sa ta
    ∧ SessionAction.closeStream ∈ on_close_actions sa ta
    ∧ SessionAction.terminateAudio ∈ on_close_actions sa ta := by
  refine ⟨?_, ?_, ?_, ?_, ?_, ?_⟩
  · induction iters with
    | nil => simp [stream_audio]
    | cons p rest ih =>
      obtain ⟨b, st⟩ := p
      cases b with
      | true => simp [stream_audio]
      | false =>
        cases st with
        | ok =>
          intro a ha
          simp [stream_audio] at ha
          rcases ha with h1 | h2 | h3
          · rw [h1]; rfl
          · rw [h2]; rfl
          · exact ih a h3
        | readFail =>
          intro a ha
          simp [stream_audio] at ha
          rw [ha]; rfl
        | sendFail =>
          intro a ha
          simp [stream_audio] at ha
          rcases ha with h1 | h2
          · rw [h1]; rfl
          · rw [h2]; rfl
  · intro a ha
    cases m with
    | malformed => simp [on_message_actions] at ha
    | valid ty tr fin fmt =>
      simp only [on_message_actions] at ha
      by_cases h1 : (ty == "Turn") = true
      · by_cases h2 : (fin || fmt) = true
        · simp [h1, h2] at ha
          rcases ha with h3 | h4
          · rw [h3]; rfl
          · rw [h4]; rfl
        · simp [h1, h2] at ha
      · simp [h1] at ha
  · intro a ha
    simp [on_error_actions] at ha
    rw [ha]; rfl
  · cases sa <;> cases ta <;> decide
  · cases sa <;> cases ta <;> decide
  · cases sa <;> cases ta <;> decide

/-- Claim C5, witness: concrete instances of the ownership statement —
the forwarder actions of one successful iteration are not closes, a put
is not a close, and the on_close handler does close the stream. -/
theorem C5_witness :
    isCloseAction SessionAction.readFrame = false
    ∧ isCloseAction (SessionAction.putResult "first") = false
    ∧ SessionAction.closeTransport ∉ on_close_actions true true
    ∧ SessionAction.closeStream ∈ on_close_actions true true := by
  have h := C5_close_ownership [(false, FwdStep.ok)]
    (InMsg.valid "Turn" "first" true false) true true
  refine ⟨?_, ?_, h.2.2.2.1, h.2.2.2.2.1⟩
  · exact h.1 SessionAction.readFrame (by decide)
  · exact h.2.1 (SessionAction.putResult "first") (by simp [on_message_actions])

/-- Claim C2, counterexample: the ws_app.close() call of line 137 sits
outside any try, so when it raises the teardown sequence aborts —
recognize raises instead of returning, the stream is never closed and
the audio device is never terminated. The sequence is therefore not
fault-tolerant at every step. -/
theorem C2_unguarded_transport_close_counterexample :
    (teardownTrace true
        { transportCloseFails := true, stopStreamFails := false,
          streamCloseFails := false, audioTerminateFails := false }).2
      = true
    ∧ SessionAction.terminateAudio ∉ (teardownTrace true
        { transportCloseFails := true, stopStreamFails := false,
          streamCloseFails := false, audioTerminateFails := false }).1
    ∧ SessionAction.closeStream ∉ (teardownTrace true
        { transportCloseFails := true, stopStreamFails := false,
          streamCloseFails := false, audioTerminateFails := false }).1 := by
  decide

/-- Claim C2, amended: after the result wait, recognize unconditionally
sets the stop event and then tears down in the order transport close,
websocket-thread join with a 2 second bound, stream stop and close,
audio terminate. The stream and audio steps each sit in their own
try/except, so the sequence survives any of their failures and the call
returns with the microphone released; only the unguarded transport close
of line 137 can abort the sequence, so the guarantee holds provided that
single call does not raise. -/
theorem C2_teardown_order_and_release (streamActive : Bool)
    (f : TeardownFaults) (h : f.transportCloseFails = false) :
    teardownTrace streamActive f
      = ([SessionAction.setStop, SessionAction.closeTransport,
          SessionAction.joinWsThread]
          ++ (if streamActive then [SessionAction.stopStream] else [])
          ++ [SessionAction.closeStream, SessionAction.terminateAudio],
         false)
    ∧ (∀ (openF : Bool) (msgs : List InMsg),
        (recognize_speech_assemblyai_streaming openF msgs
          streamActive f).raised = false
        ∧ (recognize_speech_assemblyai_streaming openF msgs
          streamActive f).audioTerminateAttempted = true) := by
  constructor
  · simp [teardownTrace, h]
  · intro openF msgs
    cases openF with
    | true => exact ⟨rfl, rfl⟩
    | false =>
      constructor
      · simp [recognize_speech_assemblyai_streaming, teardownTrace, h]
      · simp [recognize_speech_assemblyai_streaming, teardownTrace, h]

/-- Claim C2, witness: with every guarded audio step raising, teardown
still runs to completion without raising and the audio terminate call is
reached. -/
theorem C2_witness :
    (teardownTrace true
        { transportCloseFails := false, stopStreamFails := true,
          streamCloseFails := true, audioTerminateFails := true }).2
      = false
    ∧ (recognize_speech_assemblyai_streaming false [] true
        { transportCloseFails := false, stopStreamFails := true,
          streamCloseFails := true,
          audioTerminateFails := true }).audioTerminateAttempted
      = true := by
  have h := C2_teardown_order_and_release true
    { transportCloseFails := false, stopStreamFails := true,
      streamCloseFails := true, audioTerminateFails := true } rfl
  exact ⟨by rw [h.1], (h.2 false []).2⟩

/-- Claim C6: when audio.open raises, recognize returns the empty string
at once from the except branch of lines 114-118 — the audio object is
terminated, no WebSocketApp is constructed, no handlers are registered,
and no exception escapes — whatever messages or teardown faults the rest
of the session would have seen. -/
theorem C6_open_failure_returns_empty_no_connect (msgs : List InMsg)
    (streamActive : Bool) (f : TeardownFaults) :
    recognize_speech_assemblyai_streaming true msgs streamActive f
      = { transcript := "", wsCreated := false,
          handlersRegistered := false, audioTerminateAttempted := true,
          raised := false } := rfl

/-- Claim C10: each call builds a fresh session-local stop event and
result queue, and the module-level stop_event of line 45 is shadowed by
line 53, so the returned transcript does not depend on the module flag,
the module flag is left untouched, and the result of a second sequential
call is exactly what that call would produce in isolation. -/
theorem C10_sessions_independent (g1 g2 g : Bool) (openF f1 f2 : Bool)
    (msgs m1 m2 : List InMsg) :
    (recognizeShadow g1 openF msgs).1 = (recognizeShadow g2 openF msgs).1
    ∧ (recognizeShadow g1 openF msgs).2 = g1
    ∧ (recognizeShadow (recognizeShadow g f1 m1).2 f2 m2).1
        = (recognizeShadow g f2 m2).1 := by
  have hsnd : ∀ (gg : Bool) (o : Bool) (ms : List InMsg),
      (recognizeShadow gg o ms).2 = gg := by
    intro gg o ms
    cases o <;> rfl
  have hfst : ∀ (ga gb : Bool) (o : Bool) (ms : List InMsg),
      (recognizeShadow ga o ms).1 = (recognizeShadow gb o ms).1 := by
    intro ga gb o ms
    cases o <;> rfl
  exact ⟨hfst g1 g2 openF msgs, hsnd g1 openF msgs, by
    rw [hsnd g f1 m1]⟩
